import Mathlib

/-!
Verification of the eggpy IRC bot core (src/eggy/eggy.py): the quote store,
the message-handler dispatch loop, the command matchers and the
topic-renumbering logic.  Strings are modelled as lists of characters;
the persisted quote file is modelled as the raw character stream written
by `Quotes.add`, and `readQuotes` models re-reading that file the way
Python text mode does on Linux (universal-newline translation, line
iteration, then `rstrip` of trailing newline / carriage-return runs).
Handlers are state transformers returning their emitted IRC effects and
either a handled/not-handled boolean or the Python exception they raised;
the dispatch loop `Eggy.on_message` mirrors the `try`/`except` iteration
over `message_handlers`.
-/

abbrev Str : Type := List Char

/-! ### Shared string constants of the program -/

def sTrigger : Str := "eggpy".toList
def sAdd : Str := "add".toList
def sRebirth : Str := "rebirth".toList
def sOld : Str := "ooooold".toList
def sNoQuotes : Str := "No quotes".toList
def sQuoteAdded : Str := "Quote added. ".toList
def sInDatabase : Str := " quotes in database".toList
def sHandlerPre : Str := "Handler ".toList
def sThrew : Str := " threw exception ".toList
def sValueError : Str := "ValueError".toList
def sKeyError : Str := "KeyError".toList
def hnAddQuote : Str := "AddQuote".toList
def hnGetQuote : Str := "GetQuote".toList
def hnRebirth : Str := "Rebirth".toList
def hnQuoteTrigger : Str := "QuoteTrigger".toList

/-! ### Errors, effects, state -/

/-- The Python exceptions the core can raise: `ValueError()` from
`Quotes.add`, `KeyError` from `bot.topics[event.target]`. -/
inductive PyErr where
  | valueError
  | keyError
  deriving DecidableEq

/-- Result of one handler invocation: a returned boolean (handled /
not handled) or an uncaught exception. -/
inductive HRes where
  | ok (b : Bool)
  | exc (e : PyErr)
  deriving DecidableEq

/-- Outbound effects of the core: `bot.respond`/`say` (send_message),
`bot.change_topic`, `bot.set_nickname`, and `logger.error`. -/
inductive Eff where
  | send (target line : Str)
  | topic (target newTopic : Str)
  | nick (name : Str)
  | logError (line : Str)
  deriving DecidableEq

/-- The `Quotes` object: in-memory list `self.quotes` plus the raw
character content of the backing `quotes.txt` file. -/
structure QuotesState where
  quotes : List Str
  file : Str
  deriving DecidableEq

/-- The bot-wide mutable state reachable from handlers: `self.trigger`,
`self.quotes`, `self.topics` (dict from target to topic). -/
structure BotState where
  trigger : Str
  quotes : QuotesState
  topics : List (Str × Str)
  deriving DecidableEq

/-- An inbound message event (source, target, message). -/
structure Event where
  source : Str
  target : Str
  message : Str
  deriving DecidableEq

/-- What one handler invocation yields: the state at return (or at the
point the exception escaped), the effects emitted so far, and the
outcome. -/
abbrev Res := BotState × List Eff × HRes

/-! ### Basic string operations -/

/-- `p.hasPfx s`: Python `s.startswith(p)` (is `p` a leading segment of `s`). -/
def hasPfx : Str → Str → Bool
  | [], _ => true
  | _ :: _, [] => false
  | a :: p, b :: s => if a = b then hasPfx p s else false

/-- Python substring test `pat in s`. -/
def occurs (pat : Str) : Str → Bool
  | [] => decide (pat = [])
  | c :: rest => hasPfx pat (c :: rest) || occurs pat rest

/-- The decimal digit characters produced by Python `str()` of a digit. -/
def decChar : Nat → Char
  | 0 => '0' | 1 => '1' | 2 => '2' | 3 => '3' | 4 => '4'
  | 5 => '5' | 6 => '6' | 7 => '7' | 8 => '8' | _ => '9'

/-- Fuel-driven decimal rendering; the fuel is an upper bound on the
number of divisions by 10 (the argument itself always suffices). -/
def natDecimalAux : Nat → Nat → Str
  | 0, n => [decChar n]
  | fuel + 1, n =>
    if n < 10 then [decChar n]
    else natDecimalAux fuel (n / 10) ++ [decChar (n % 10)]

/-- Python `str(n)` for a natural number. -/
def natDecimal (n : Nat) : Str := natDecimalAux n n

/-- Python `str(i)` for an integer (sign prepended when negative). -/
def intDecimal (i : Int) : Str :=
  if i < 0 then '-' :: natDecimal i.natAbs else natDecimal i.toNat

/-- Numeric value of an ASCII digit character. -/
def digitVal (c : Char) : Nat := c.toNat - 48

/-- Python `int()` of a string of decimal digits. -/
def digitsVal (s : Str) : Nat := s.foldl (fun a c => 10 * a + digitVal c) 0

def isDigitCh (c : Char) : Bool := 48 ≤ c.toNat && c.toNat ≤ 57

def isNonzeroDigitCh (c : Char) : Bool := 49 ≤ c.toNat && c.toNat ≤ 57

def isAlnumCh (c : Char) : Bool :=
  isDigitCh c || (65 ≤ c.toNat && c.toNat ≤ 90) || (97 ≤ c.toNat && c.toNat ≤ 122)

/-- The capture group of `^#(-?[1-9]\d*)?$` when nonempty: an optional
minus sign, a nonzero leading digit, then digits. -/
def digitsOk : Str → Bool
  | [] => false
  | d :: t => isNonzeroDigitCh d && t.all isDigitCh

/-- Matching the GetQuote trigger `^#(-?[1-9]\d*)?$`: `none` when the
message does not match, `some none` for a bare `#`, `some (some i)` for
`#` followed by the signed integer `i`. -/
def matchIdx (msg : Str) : Option (Option Int) :=
  match msg with
  | [] => none
  | c :: rest =>
    if c = '#' then
      match rest with
      | [] => some none
      | c2 :: ds =>
        if c2 = '-' then
          if digitsOk ds then some (some (-(digitsVal ds : Int))) else none
        else
          if digitsOk (c2 :: ds) then some (some ((digitsVal (c2 :: ds) : Int))) else none
    else none

/-- Fuel-driven literal substitution: `re.sub` with a literal (digits
only, hence metacharacter-free) nonempty pattern replaces every
non-overlapping occurrence, scanning left to right.  The fuel is an
upper bound on the length of the subject. -/
def subAllAux (pat rep : Str) : Nat → Str → Str
  | _, [] => []
  | 0, s => s
  | fuel + 1, c :: rest =>
    if hasPfx pat (c :: rest) = true ∧ pat ≠ [] then
      rep ++ subAllAux pat rep fuel (List.drop (pat.length - 1) rest)
    else
      c :: subAllAux pat rep fuel rest

/-- `re.sub(re.compile(pat), rep, s)` for a literal nonempty pattern. -/
def subAll (pat rep s : Str) : Str := subAllAux pat rep s.length s

/-- Lookup in the `self.topics` dict; `none` models the `KeyError` case. -/
def lookupTopic : List (Str × Str) → Str → Option Str
  | [], _ => none
  | (k, v) :: rest, t => if k = t then some v else lookupTopic rest t

/-- `random.choice(quotes)` with the randomness supplied as an oracle
`r`; for a nonempty list the result is the entry at index `r % length`. -/
def randomChoice (r : Nat) (l : List Str) : Str := l.getD (r % l.length) []

/-! ### Persisted-file reading (`Quotes._read_quotes`) -/

/-- Python-3 universal-newline translation applied by text-mode reading:
`\r\n` and lone `\r` both become `\n`. -/
def normalizeNL : Str → Str
  | [] => []
  | [c] => if c = '\r' then ['\n'] else [c]
  | c :: c2 :: rest =>
    if c = '\r' then
      if c2 = '\n' then '\n' :: normalizeNL rest
      else '\n' :: normalizeNL (c2 :: rest)
    else c :: normalizeNL (c2 :: rest)

/-- Line iteration over a (newline-normalized) text: every line keeps its
trailing `\n`; a final segment without one is still yielded. -/
def pyLines : Str → List Str
  | [] => []
  | c :: rest =>
    if c = '\n' then ['\n'] :: pyLines rest
    else
      match pyLines rest with
      | [] => [[c]]
      | l :: ls => (c :: l) :: ls

/-- Python `line.rstrip('\n\r')`: remove the maximal trailing run of
newline and carriage-return characters. -/
def rstripNL (s : Str) : Str :=
  (s.reverse.dropWhile (fun c => c = '\n' || c = '\r')).reverse

/-- `Quotes._read_quotes`: iterate the lines of the file and strip each
line's trailing newline/carriage-return run. -/
def readQuotes (file : Str) : List Str :=
  (pyLines (normalizeNL file)).map rstripNL

/-! ### The quote store -/

/-- `Quotes.add`: reject the empty string and strings with an embedded
line break (`ValueError`); otherwise append to the in-memory list and
write the quote plus a newline to the file (flushed).  The `raise`
happens before any mutation, so on error the state is untouched. -/
def Quotes.add (qs : QuotesState) (quote : Str) : Except PyErr QuotesState :=
  if quote = [] ∨ '\n' ∈ quote then Except.error PyErr.valueError
  else Except.ok { quotes := qs.quotes ++ [quote], file := qs.file ++ quote ++ ['\n'] }

/-- The confirmation reply `"Quote added. " + str(len) + " quotes in database"`. -/
def confirmMsg (n : Nat) : Str := sQuoteAdded ++ natDecimal n ++ sInDatabase

/-! ### The command matchers -/

/-- `AddQuote.on_command`: duplicate check, insertion, then the
topic-renumbering substitution.  `bot.topics[event.target]` raises
`KeyError` when the target has no cached topic. -/
def AddQuote.on_command (st : BotState) (ev : Event) (new_quote : Str) : Res :=
  if new_quote ∈ st.quotes.quotes then
    (st, [Eff.send ev.target sOld], HRes.ok true)
  else
    match Quotes.add st.quotes new_quote with
    | Except.error e => (st, [], HRes.exc e)
    | Except.ok qs =>
      let st1 : BotState := { st with quotes := qs }
      match lookupTopic st1.topics ev.target with
      | none => (st1, [], HRes.exc PyErr.keyError)
      | some topic =>
        if topic ≠ [] then
          let newtopic := subAll (natDecimal (qs.quotes.length - 1)) (natDecimal qs.quotes.length) topic
          if newtopic ≠ topic then
            (st1, [Eff.topic ev.target newtopic], HRes.ok true)
          else
            (st1, [Eff.send ev.target (confirmMsg qs.quotes.length)], HRes.ok true)
        else
          (st1, [Eff.send ev.target (confirmMsg qs.quotes.length)], HRes.ok true)

/-- `GetQuote.on_message`: match `^#(-?[1-9]\d*)?$`; bare `#` replies the
count; a signed index is resolved (negative means from the end) and an
out-of-range resolution returns not-handled. -/
def GetQuote.on_message (st : BotState) (ev : Event) : Res :=
  match matchIdx ev.message with
  | none => (st, [], HRes.ok false)
  | some none => (st, [Eff.send ev.target (natDecimal st.quotes.quotes.length)], HRes.ok true)
  | some (some q) =>
    let number : Int := if q < 0 then q + st.quotes.quotes.length + 1 else q
    if number > (st.quotes.quotes.length : Int) ∨ number ≤ 0 then
      (st, [], HRes.ok false)
    else
      (st, [Eff.send ev.target (st.quotes.quotes.getD (number.toNat - 1) [])], HRes.ok true)

/-- `Rebirth.on_command`: the argument must fully match `^[0-9a-zA-Z]+$`;
otherwise not handled. -/
def Rebirth.on_command (st : BotState) (_ev : Event) (args : Str) : Res :=
  if args ≠ [] ∧ args.all isAlnumCh then (st, [Eff.nick args], HRes.ok true)
  else (st, [], HRes.ok false)

/-- `QuoteTrigger.on_message`: fires when the trigger word occurs
anywhere in the message; replies "No quotes" on an empty store, else a
randomly chosen quote. -/
def QuoteTrigger.on_message (r : Nat) (st : BotState) (ev : Event) : Res :=
  if ¬ occurs st.trigger ev.message then (st, [], HRes.ok false)
  else if st.quotes.quotes.length = 0 then
    (st, [Eff.send ev.target sNoQuotes], HRes.ok true)
  else
    (st, [Eff.send ev.target (randomChoice r st.quotes.quotes)], HRes.ok true)

/-- `Command.on_message`: requires the message to start with
`trigger + " " + command + " "` and passes the remainder on. -/
def Command.on_message (command : Str) (onCmd : BotState → Event → Str → Res)
    (st : BotState) (ev : Event) : Res :=
  let pfx : Str := st.trigger ++ [' '] ++ command ++ [' ']
  if hasPfx pfx ev.message then onCmd st ev (ev.message.drop pfx.length)
  else (st, [], HRes.ok false)

/-! ### The dispatch loop -/

/-- Rendering of `str(type(err))` for the exceptions the core raises
(the exact interpreter formatting is immaterial; only the error kind and
the handler identity matter to the log). -/
def errStr : PyErr → Str
  | PyErr.valueError => sValueError
  | PyErr.keyError => sKeyError

/-- Rendering of `str(err)`; the exceptions raised here carry no message
text, so this is empty. -/
def errDetail (_ : PyErr) : Str := []

/-- The first log line of the `except` block:
`"Handler " + str(handler) + " threw exception " + str(type(err))`. -/
def handlerExcMsg (name : Str) (e : PyErr) : Str :=
  sHandlerPre ++ name ++ sThrew ++ errStr e

/-- `Eggy.on_message`: iterate the registered handlers in order; stop at
the first returning `True`; on an exception, log two lines and continue
with the next handler. -/
def Eggy.on_message : List (Str × (BotState → Res)) → BotState → BotState × List Eff
  | [], st => (st, [])
  | (name, fn) :: rest, st =>
    match fn st with
    | (st1, effs, HRes.ok true) => (st1, effs)
    | (st1, effs, HRes.ok false) =>
      let next := Eggy.on_message rest st1
      (next.1, effs ++ next.2)
    | (st1, effs, HRes.exc e) =>
      let next := Eggy.on_message rest st1
      (next.1, effs ++ [Eff.logError (handlerExcMsg name e), Eff.logError (errDetail e)] ++ next.2)

/-- The registration order fixed in `Eggy.__init__`: AddQuote, GetQuote,
Rebirth, QuoteTrigger. -/
def Eggy.message_handlers (r : Nat) (ev : Event) :
    List (Str × (BotState → Res)) :=
  [(hnAddQuote, fun st => Command.on_message sAdd AddQuote.on_command st ev),
   (hnGetQuote, fun st => GetQuote.on_message st ev),
   (hnRebirth, fun st => Command.on_message sRebirth Rebirth.on_command st ev),
   (hnQuoteTrigger, fun st => QuoteTrigger.on_message r st ev)]

/-- Full processing of one inbound message event. -/
def Eggy.handleMessage (r : Nat) (st : BotState) (ev : Event) : BotState × List Eff :=
  Eggy.on_message (Eggy.message_handlers r ev) st

/-- Sequential processing of a list of message events, collecting the
effects of each. -/
def Eggy.runMsgs (r : Nat) (st : BotState) : List Event → BotState × List (List Eff)
  | [] => (st, [])
  | ev :: evs =>
    let step := Eggy.handleMessage r st ev
    let next := Eggy.runMsgs r step.1 evs
    (next.1, step.2 :: next.2)

/-- The store/file invariant: the file is exactly the stored quotes each
followed by a newline, and every stored quote is nonempty and free of
line breaks and carriage returns. -/
abbrev QuotesState.packed (qs : QuotesState) : Prop :=
  qs.file = (qs.quotes.map (fun q => q ++ ['\n'])).flatten ∧
  ∀ q ∈ qs.quotes, q ≠ [] ∧ '\n' ∉ q ∧ '\r' ∉ q

/-! ### Concrete fixtures used by witnesses and counterexamples -/

def sChan : Str := "#chan".toList
def sAlice : Str := "alice".toList
def sHello : Str := "hello world".toList
def sWelcome : Str := "welcome to the channel".toList
def sFive : Str := "5 quotes".toList
def sBad : Str := "a\nb".toList
def sCRq : Str := "a\r".toList
def sQa : Str := "alpha".toList
def sQb : Str := "beta".toList
def sQc : Str := "gamma".toList
def qsEmpty : QuotesState := ⟨[], []⟩
def stEmptyNoTopic : BotState := ⟨sTrigger, qsEmpty, []⟩
def qs3 : QuotesState := ⟨[sQa, sQb, sQc], sQa ++ '\n' :: (sQb ++ '\n' :: (sQc ++ ['\n']))⟩
def stW3 : BotState := ⟨sTrigger, qs3, []⟩
def stTopic5 : BotState := ⟨sTrigger, ⟨[sQa, sQb, sQc, sAlice, sWelcome], []⟩, [(sChan, sFive)]⟩
def stW1 : BotState := ⟨sTrigger, ⟨[sHello], sHello ++ ['\n']⟩, []⟩
def evHello : Event := ⟨sAlice, sChan, sHello⟩
def evGQ0 : Event := ⟨sAlice, sChan, "#0".toList⟩
def evGQneg : Event := ⟨sAlice, sChan, "#-4".toList⟩
def evReb : Event := ⟨sAlice, sChan, "eggpy rebirth bot2!".toList⟩
def stScen : BotState := ⟨sTrigger, ⟨[], []⟩, [(sChan, sWelcome)]⟩
def stScenAfter : BotState := ⟨sTrigger, ⟨[sHello], sHello ++ ['\n']⟩, [(sChan, sWelcome)]⟩
def evScen1 : Event := ⟨sAlice, sChan, "eggpy add hello world".toList⟩
def evScen2 : Event := ⟨sAlice, sChan, "#".toList⟩
def evScen3 : Event := ⟨sAlice, sChan, "#1".toList⟩
def evScen4 : Event := ⟨sAlice, sChan, "eggpy".toList⟩

/-! ### Lemmas: prefixes and substring occurrence -/

theorem hasPfx_self_append (p t : Str) : hasPfx p (p ++ t) = true := by
  induction p with
  | nil => rfl
  | cons a p ih => simp [hasPfx, ih]

theorem hasPfx_append_right (p : Str) :
    ∀ r x : Str, p.length ≤ r.length → hasPfx p (r ++ x) = hasPfx p r := by
  induction p with
  | nil => intro r x _; rfl
  | cons a p ih =>
    intro r x h
    cases r with
    | nil => simp at h
    | cons b r' =>
      simp only [List.cons_append, hasPfx]
      by_cases hab : a = b
      · have hlen : p.length ≤ r'.length := by
          simp only [List.length_cons] at h; omega
        simp [hab, ih r' x hlen]
      · simp [hab]

theorem eq_append_of_hasPfx : ∀ p s : Str, hasPfx p s = true → s = p ++ s.drop p.length := by
  intro p
  induction p with
  | nil => intro s _; simp
  | cons a p ih =>
    intro s h
    cases s with
    | nil => simp [hasPfx] at h
    | cons b s' =>
      simp only [hasPfx] at h
      by_cases hab : a = b
      · subst hab
        simp only [if_pos rfl] at h
        have h2 := ih s' h
        simp only [List.length_cons, List.drop_succ_cons, List.cons_append]
        exact congrArg (a :: ·) h2
      · simp [hab] at h

theorem occurs_append_pat : ∀ a pat b : Str, occurs pat (a ++ (pat ++ b)) = true := by
  intro a pat b
  induction a with
  | nil =>
    simp only [List.nil_append]
    cases hpb : pat ++ b with
    | nil =>
      have hp : pat = [] := by cases pat <;> simp_all
      simp [occurs, hp]
    | cons c rest =>
      rw [occurs, ← hpb, hasPfx_self_append]
      simp
  | cons c a' ih =>
    rw [List.cons_append, occurs, ih, Bool.or_true]

theorem occurs_ne_nil (pat s : Str) (h : occurs pat s = true) (hp : pat ≠ []) : s ≠ [] := by
  intro hs
  subst hs
  rw [occurs] at h
  simp at h
  exact hp h

/-! ### Lemmas: decimal rendering and parsing -/

theorem decChar_digit (d : Nat) : isDigitCh (decChar d) = true := by
  rcases d with _|_|_|_|_|_|_|_|_|d <;> rfl

theorem decChar_nonzero (d : Nat) (h : 1 ≤ d) : isNonzeroDigitCh (decChar d) = true := by
  rcases d with _|_|_|_|_|_|_|_|_|d
  · omega
  all_goals rfl

theorem decChar_val (d : Nat) (h : d < 10) : digitVal (decChar d) = d := by
  rcases d with _|_|_|_|_|_|_|_|_|d
  · rfl
  · rfl
  · rfl
  · rfl
  · rfl
  · rfl
  · rfl
  · rfl
  · rfl
  · have hd : d = 0 := by omega
    subst hd
    rfl

theorem natDecimalAux_stable : ∀ f1 f2 n : Nat, n ≤ f1 → n ≤ f2 →
    natDecimalAux f1 n = natDecimalAux f2 n := by
  intro f1
  induction f1 with
  | zero =>
    intro f2 n h1 _
    have hn : n = 0 := by omega
    subst hn
    cases f2 <;> rfl
  | succ g ih =>
    intro f2 n h1 h2
    by_cases hn : n < 10
    · cases f2 with
      | zero =>
        have : n = 0 := by omega
        subst this
        rfl
      | succ k => simp [natDecimalAux, hn]
    · cases f2 with
      | zero => omega
      | succ k =>
        have hd : n / 10 < n := Nat.div_lt_self (by omega) (by omega)
        simp only [natDecimalAux, if_neg hn]
        rw [ih k (n / 10) (by omega) (by omega)]

theorem natDecimal_unfold (n : Nat) :
    natDecimal n = if n < 10 then [decChar n]
      else natDecimal (n / 10) ++ [decChar (n % 10)] := by
  by_cases hn : n < 10
  · cases n with
    | zero => simp [natDecimal, natDecimalAux, hn]
    | succ k => simp [natDecimal, natDecimalAux, hn]
  · have h1 : n ≠ 0 := by omega
    cases n with
    | zero => omega
    | succ k =>
      have hd : (k + 1) / 10 < k + 1 := Nat.div_lt_self (by omega) (by omega)
      simp only [natDecimal, natDecimalAux, if_neg hn]
      rw [natDecimalAux_stable k ((k + 1) / 10) ((k + 1) / 10) (by omega) le_rfl]

theorem natDecimal_ne_nil (n : Nat) : natDecimal n ≠ [] := by
  rw [natDecimal_unfold]
  by_cases hn : n < 10 <;> simp [hn]

theorem natDecimal_digits (n : Nat) : ∀ c ∈ natDecimal n, isDigitCh c = true := by
  induction n using Nat.strong_induction_on with
  | _ n ih =>
    rw [natDecimal_unfold]
    by_cases hn : n < 10
    · simp only [if_pos hn, List.mem_singleton]
      rintro c rfl
      exact decChar_digit n
    · simp only [if_neg hn, List.mem_append, List.mem_singleton]
      rintro c (hc | rfl)
      · exact ih (n / 10) (Nat.div_lt_self (by omega) (by omega)) c hc
      · exact decChar_digit _

theorem natDecimal_head_nonzero (n : Nat) (h : 1 ≤ n) :
    ∃ d t, natDecimal n = d :: t ∧ isNonzeroDigitCh d = true := by
  induction n using Nat.strong_induction_on with
  | _ n ih =>
    rw [natDecimal_unfold]
    by_cases hn : n < 10
    · exact ⟨decChar n, [], by simp [if_pos hn], decChar_nonzero n h⟩
    · obtain ⟨d, t, hdt, hd⟩ := ih (n / 10) (Nat.div_lt_self (by omega) (by omega)) (by omega)
      refine ⟨d, t ++ [decChar (n % 10)], ?_, hd⟩
      simp [if_neg hn, hdt]

theorem natDecimal_digitsOk (n : Nat) (h : 1 ≤ n) : digitsOk (natDecimal n) = true := by
  obtain ⟨d, t, hdt, hd⟩ := natDecimal_head_nonzero n h
  rw [hdt]
  have hall : t.all isDigitCh = true := by
    rw [List.all_eq_true]
    intro c hc
    exact natDecimal_digits n c (by rw [hdt]; exact List.mem_cons_of_mem _ hc)
  simp [digitsOk, hd, hall]

theorem digitsVal_foldl_init (b : Str) : ∀ init : Nat,
    b.foldl (fun a c => 10 * a + digitVal c) init = init * 10 ^ b.length + digitsVal b := by
  induction b with
  | nil => intro init; simp [digitsVal]
  | cons c b ih =>
    intro init
    have h2 : digitsVal (c :: b) = b.foldl (fun a c => 10 * a + digitVal c) (digitVal c) := by
      simp [digitsVal]
    simp only [List.foldl_cons, List.length_cons, h2]
    rw [ih (10 * init + digitVal c), ih (digitVal c)]
    ring

theorem digitsVal_append (a b : Str) :
    digitsVal (a ++ b) = digitsVal a * 10 ^ b.length + digitsVal b := by
  have h : digitsVal (a ++ b) =
      b.foldl (fun a c => 10 * a + digitVal c) (digitsVal a) := by
    simp [digitsVal, List.foldl_append]
  rw [h, digitsVal_foldl_init]

theorem digitsVal_natDecimal (n : Nat) : digitsVal (natDecimal n) = n := by
  induction n using Nat.strong_induction_on with
  | _ n ih =>
    rw [natDecimal_unfold]
    by_cases hn : n < 10
    · simp only [if_pos hn]
      have hv := decChar_val n hn
      simp [digitsVal, hv]
    · simp only [if_neg hn]
      rw [digitsVal_append]
      rw [ih (n / 10) (Nat.div_lt_self (by omega) (by omega))]
      have hv := decChar_val (n % 10) (Nat.mod_lt _ (by omega))
      simp only [List.length_singleton, pow_one]
      have hd : digitsVal [decChar (n % 10)] = n % 10 := by simp [digitsVal, hv]
      rw [hd]
      omega

theorem natDecimal_length_le : ∀ n m : Nat, m ≤ n →
    (natDecimal m).length ≤ (natDecimal n).length := by
  intro n
  induction n using Nat.strong_induction_on with
  | _ n ih =>
    intro m hmn
    rw [natDecimal_unfold n, natDecimal_unfold m]
    by_cases hn : n < 10
    · have hm : m < 10 := by omega
      simp [hn, hm]
    · by_cases hm : m < 10
      · simp only [if_neg hn, if_pos hm, List.length_append, List.length_singleton,
          List.length_cons, List.length_nil]
        omega
      · simp only [if_neg hn, if_neg hm, List.length_append, List.length_singleton]
        have := ih (n / 10) (Nat.div_lt_self (by omega) (by omega)) (m / 10)
          (Nat.div_le_div_right hmn)
        omega

theorem natDecimal_succ_not_pfx (n : Nat) :
    hasPfx (natDecimal n) (natDecimal (n + 1)) = false := by
  by_contra hne
  rw [Bool.not_eq_false] at hne
  have heq := eq_append_of_hasPfx _ _ hne
  set b := (natDecimal (n + 1)).drop (natDecimal n).length with hb
  have hv : n + 1 = n * 10 ^ b.length + digitsVal b := by
    have h2 := digitsVal_append (natDecimal n) b
    rw [← heq, digitsVal_natDecimal, digitsVal_natDecimal] at h2
    exact h2
  rcases Nat.eq_zero_or_pos b.length with hb0 | hb1
  · have hbe : b = [] := List.eq_nil_of_length_eq_zero hb0
    rw [hbe] at hv
    simp [digitsVal] at hv
  · have hpow : 10 ^ 1 ≤ 10 ^ b.length := Nat.pow_le_pow_right (by omega) hb1
    have hmul : n * 10 ≤ n * 10 ^ b.length := by
      apply Nat.mul_le_mul_left
      omega
    have hn0 : n = 0 := by omega
    subst hn0
    rw [show natDecimal 1 = ['1'] from rfl, show natDecimal 0 = ['0'] from rfl] at heq
    have hh := congrArg (fun l => l.head?) heq
    simp at hh

/-! ### Lemmas: the literal substitution -/

theorem subAllAux_stable (pat rep : Str) : ∀ f1 f2 s, s.length ≤ f1 → s.length ≤ f2 →
    subAllAux pat rep f1 s = subAllAux pat rep f2 s := by
  intro f1
  induction f1 with
  | zero =>
    intro f2 s h1 _
    have hs : s = [] := List.eq_nil_of_length_eq_zero (by omega)
    subst hs
    cases f2 <;> rfl
  | succ g ih =>
    intro f2 s h1 h2
    cases s with
    | nil => cases f2 <;> rfl
    | cons c rest =>
      cases f2 with
      | zero => simp at h2
      | succ k =>
        simp only [List.length_cons] at h1 h2
        simp only [subAllAux]
        by_cases hg : hasPfx pat (c :: rest) = true ∧ pat ≠ []
        · rw [if_pos hg, if_pos hg]
          congr 1
          apply ih
          · have := List.length_drop (pat.length - 1) rest
            omega
          · have := List.length_drop (pat.length - 1) rest
            omega
        · rw [if_neg hg, if_neg hg]
          congr 1
          apply ih <;> omega

theorem subAll_cons (pat rep : Str) (c : Char) (rest : Str) :
    subAll pat rep (c :: rest) =
      if hasPfx pat (c :: rest) = true ∧ pat ≠ [] then
        rep ++ subAll pat rep (List.drop (pat.length - 1) rest)
      else c :: subAll pat rep rest := by
  show subAllAux pat rep (rest.length + 1) (c :: rest) = _
  simp only [subAllAux]
  by_cases hg : hasPfx pat (c :: rest) = true ∧ pat ≠ []
  · rw [if_pos hg, if_pos hg]
    congr 1
    apply subAllAux_stable
    · have := List.length_drop (pat.length - 1) rest
      omega
    · exact le_rfl
  · rw [if_neg hg, if_neg hg]
    rfl

theorem subAll_id_aux (pat rep : Str) : ∀ n s, s.length ≤ n → occurs pat s = false →
    subAll pat rep s = s := by
  intro n
  induction n with
  | zero =>
    intro s h1 _
    have hs : s = [] := List.eq_nil_of_length_eq_zero (by omega)
    subst hs
    rfl
  | succ k ih =>
    intro s h1 h2
    cases s with
    | nil => rfl
    | cons c rest =>
      rw [occurs, Bool.or_eq_false_iff] at h2
      rw [subAll_cons, if_neg (by simp [h2.1])]
      rw [ih rest (by simp only [List.length_cons] at h1; omega) h2.2]

theorem subAll_id_of_not_occurs (pat rep s : Str) (h : occurs pat s = false) :
    subAll pat rep s = s :=
  subAll_id_aux pat rep s.length s le_rfl h

theorem subAll_ne_aux (pat rep : Str) (hlen : pat.length ≤ rep.length)
    (hpf : hasPfx pat rep = false) : ∀ n s, s.length ≤ n → occurs pat s = true →
    subAll pat rep s ≠ s := by
  have hpat : pat ≠ [] := by
    intro hp
    subst hp
    simp [hasPfx] at hpf
  intro n
  induction n with
  | zero =>
    intro s h1 h2
    have hs : s = [] := List.eq_nil_of_length_eq_zero (by omega)
    subst hs
    exact absurd (occurs_ne_nil _ _ h2 hpat rfl) (by simp)
  | succ k ih =>
    intro s h1 h2
    cases s with
    | nil => exact absurd (occurs_ne_nil _ _ h2 hpat rfl) (by simp)
    | cons c rest =>
      rw [subAll_cons]
      by_cases hg : hasPfx pat (c :: rest) = true ∧ pat ≠ []
      · rw [if_pos hg]
        intro heq
        have hdecomp := eq_append_of_hasPfx pat (c :: rest) hg.1
        have hdrop : (c :: rest).drop pat.length = rest.drop (pat.length - 1) := by
          cases hpl : pat.length with
          | zero => exact absurd (List.eq_nil_of_length_eq_zero hpl) hpat
          | succ m => simp [List.drop_succ_cons]
        rw [hdrop] at hdecomp
        rw [hdecomp] at heq
        have hcmp : hasPfx pat (rep ++ subAll pat rep (rest.drop (pat.length - 1))) =
            hasPfx pat rep := hasPfx_append_right pat rep _ hlen
        rw [heq, hasPfx_self_append, hpf] at hcmp
        exact absurd hcmp (by decide)
      · rw [if_neg hg]
        intro heq
        have heq' : subAll pat rep rest = rest := by
          injection heq
        rw [occurs] at h2
        rcases Bool.or_eq_true_iff.mp h2 with hp | ho
        · exact hg ⟨hp, hpat⟩
        · exact ih rest (by simp only [List.length_cons] at h1; omega) ho heq'

theorem subAll_ne_of_occurs (pat rep s : Str) (hlen : pat.length ≤ rep.length)
    (hpf : hasPfx pat rep = false) (ho : occurs pat s = true) :
    subAll pat rep s ≠ s :=
  subAll_ne_aux pat rep hlen hpf s.length s le_rfl ho

/-! ### Lemmas: reading back the persisted file -/

theorem normalizeNL_id (s : Str) (h : '\r' ∉ s) : normalizeNL s = s := by
  induction s with
  | nil => rfl
  | cons c rest ih =>
    simp only [List.mem_cons, not_or] at h
    have hc : ¬ c = '\r' := fun hcc => h.1 hcc.symm
    have hrest : '\r' ∉ rest := by
      intro hm
      exact h.2 hm
    cases rest with
    | nil => simp [normalizeNL, hc]
    | cons c2 rest' =>
      simp only [normalizeNL, if_neg hc]
      rw [ih hrest]

theorem pyLines_append (q tail : Str) (h : '\n' ∉ q) :
    pyLines (q ++ '\n' :: tail) = (q ++ ['\n']) :: pyLines tail := by
  induction q with
  | nil => simp [pyLines]
  | cons c q' ih =>
    simp only [List.mem_cons, not_or] at h
    have hc : ¬ c = '\n' := fun hcc => h.1 hcc.symm
    have ih' := ih h.2
    rw [List.cons_append, pyLines, if_neg hc, ih']
    rfl

theorem rstripNL_append_nl (q : Str) (hq : q ≠ []) (hn : '\n' ∉ q) (hr : '\r' ∉ q) :
    rstripNL (q ++ ['\n']) = q := by
  have hrev : (q ++ ['\n']).reverse = '\n' :: q.reverse := by simp
  unfold rstripNL
  rw [hrev, List.dropWhile_cons]
  simp only [decide_True, Bool.true_or, if_true]
  cases hqr : q.reverse with
  | nil =>
    have : q = [] := by simpa using congrArg List.reverse hqr
    exact absurd this hq
  | cons h0 t =>
    have hh0 : h0 ∈ q := by
      rw [← List.mem_reverse, hqr]
      exact List.mem_cons_self _ _
    have h1 : ¬ h0 = '\n' := fun he => hn (he ▸ hh0)
    have h2 : ¬ h0 = '\r' := fun he => hr (he ▸ hh0)
    rw [List.dropWhile_cons]
    have hp : (decide (h0 = '\n') || decide (h0 = '\r')) = false := by simp [h1, h2]
    rw [hp, if_neg (by decide), ← hqr]
    exact List.reverse_reverse q

theorem pyLines_flatten (qs : List Str) (hws : ∀ q ∈ qs, q ≠ [] ∧ '\n' ∉ q) :
    pyLines ((qs.map (fun q => q ++ ['\n'])).flatten) = qs.map (fun q => q ++ ['\n']) := by
  induction qs with
  | nil => rfl
  | cons q qs' ih =>
    simp only [List.map_cons, List.flatten_cons]
    have hassoc : (q ++ ['\n']) ++ (qs'.map (fun q => q ++ ['\n'])).flatten
        = q ++ '\n' :: (qs'.map (fun q => q ++ ['\n'])).flatten := by
      simp [List.append_assoc]
    rw [hassoc, pyLines_append q _ (hws q (List.mem_cons_self q qs')).2]
    rw [ih (fun p hp => hws p (List.mem_cons_of_mem _ hp))]

theorem readQuotes_packed (qs : List Str)
    (hws : ∀ q ∈ qs, q ≠ [] ∧ '\n' ∉ q ∧ '\r' ∉ q) :
    readQuotes ((qs.map (fun q => q ++ ['\n'])).flatten) = qs := by
  have hnr : '\r' ∉ (qs.map (fun q => q ++ ['\n'])).flatten := by
    simp only [List.mem_flatten, List.mem_map, not_exists, not_and]
    rintro l ⟨q, hq, rfl⟩ hmem
    rcases List.mem_append.mp hmem with hm | hm
    · exact (hws q hq).2.2 hm
    · simp at hm
  unfold readQuotes
  rw [normalizeNL_id _ hnr,
    pyLines_flatten qs (fun q hq => ⟨(hws q hq).1, (hws q hq).2.1⟩)]
  rw [List.map_map]
  have hcong : ∀ q ∈ qs, (rstripNL ∘ fun q => q ++ ['\n']) q = id q := by
    intro q hq
    exact rstripNL_append_nl q (hws q hq).1 (hws q hq).2.1 (hws q hq).2.2
  rw [List.map_congr_left hcong, List.map_id]

/-! ### Lemmas: the GetQuote pattern on rendered indices -/

theorem matchIdx_render_pos (n : Nat) (h : 1 ≤ n) :
    matchIdx ('#' :: natDecimal n) = some (some (n : Int)) := by
  obtain ⟨d, t, hdt, hd⟩ := natDecimal_head_nonzero n h
  have hdok : digitsOk (d :: t) = true := by
    rw [← hdt]
    exact natDecimal_digitsOk n h
  have hdm : ¬ d = '-' := by
    intro he
    rw [he] at hd
    simp [isNonzeroDigitCh] at hd
  have hval : digitsVal (d :: t) = n := by
    rw [← hdt]
    exact digitsVal_natDecimal n
  rw [hdt]
  simp only [matchIdx, if_pos rfl, if_neg hdm, hdok, if_true, hval]

theorem matchIdx_render_neg (n : Nat) (h : 1 ≤ n) :
    matchIdx ('#' :: '-' :: natDecimal n) = some (some (-(n : Int))) := by
  have hdok := natDecimal_digitsOk n h
  have hval := digitsVal_natDecimal n
  cases hdt : natDecimal n with
  | nil => exact absurd hdt (natDecimal_ne_nil n)
  | cons d t =>
    rw [hdt] at hdok hval
    simp only [matchIdx, if_pos rfl, hdok, if_true, hval]

/-! ### Lemmas: the dispatch and run helpers -/

theorem runMsgs_cons (r : Nat) (st : BotState) (ev : Event) (evs : List Event) :
    Eggy.runMsgs r st (ev :: evs) =
      ((Eggy.runMsgs r (Eggy.handleMessage r st ev).1 evs).1,
        (Eggy.handleMessage r st ev).2 :: (Eggy.runMsgs r (Eggy.handleMessage r st ev).1 evs).2) :=
  rfl

theorem runMsgs_nil (r : Nat) (st : BotState) : Eggy.runMsgs r st [] = (st, []) := rfl

/-! ### Claim theorems -/

/-- Claim C3: for every string that is empty or contains an embedded line
break, `add` fails with the invalid-quote error (`ValueError`); since the
raise precedes any mutation, no new store state is produced and `count()`
is unchanged at the caller. -/
theorem add_invalid_quote_rejected (qs : QuotesState) (q : Str)
    (h : q = [] ∨ '\n' ∈ q) : Quotes.add qs q = Except.error PyErr.valueError := by
  unfold Quotes.add
  rw [if_pos h]

/-- Witness for C3 at the concrete inputs `""` and `"a\nb"` on the empty store. -/
theorem add_invalid_quote_rejected_witness :
    (sBad = [] ∨ '\n' ∈ sBad) ∧ (([] : Str) = [] ∨ '\n' ∈ ([] : Str)) ∧
    Quotes.add qsEmpty sBad = Except.error PyErr.valueError ∧
    Quotes.add qsEmpty [] = Except.error PyErr.valueError :=
  ⟨by decide, by decide,
    add_invalid_quote_rejected qsEmpty sBad (by decide),
    add_invalid_quote_rejected qsEmpty [] (by decide)⟩

/-- Claim C4: for every non-empty, newline-free string not already stored,
`add` succeeds, `count()` grows by exactly one, and the quote at the new
`count()` (1-based, i.e. index `count() - 1`) is the added string. -/
theorem add_appends_quote (qs : QuotesState) (q : Str)
    (h1 : q ≠ []) (h2 : '\n' ∉ q) (_h3 : q ∉ qs.quotes) :
    ∃ qs', Quotes.add qs q = Except.ok qs' ∧
      qs'.quotes.length = qs.quotes.length + 1 ∧
      qs'.quotes.getD (qs'.quotes.length - 1) [] = q := by
  refine ⟨⟨qs.quotes ++ [q], qs.file ++ q ++ ['\n']⟩, ?_, by simp, ?_⟩
  · unfold Quotes.add
    rw [if_neg (by simp [h1, h2])]
  · simp only [List.length_append, List.length_singleton]
    have hidx : qs.quotes.length + 1 - 1 = qs.quotes.length := by omega
    rw [hidx, List.getD_eq_getElem?_getD, List.getElem?_concat_length]
    rfl

/-- Witness for C4: adding `"hello world"` to the empty store. -/
theorem add_appends_quote_witness :
    (sHello ≠ [] ∧ '\n' ∉ sHello ∧ sHello ∉ qsEmpty.quotes) ∧
    ∃ qs', Quotes.add qsEmpty sHello = Except.ok qs' ∧
      qs'.quotes.length = qsEmpty.quotes.length + 1 ∧
      qs'.quotes.getD (qs'.quotes.length - 1) [] = sHello :=
  ⟨⟨by decide, by decide, by decide⟩,
    add_appends_quote qsEmpty sHello (by decide) (by decide) (by decide)⟩

/-- Claim C8: an AddQuote command whose candidate already exists verbatim
replies with the duplicate notice `"ooooold"`, reports handled, and leaves
the whole bot state (memory and persisted log included) unchanged. -/
theorem addquote_duplicate_frame (st : BotState) (ev : Event) (q : Str)
    (h : q ∈ st.quotes.quotes) :
    AddQuote.on_command st ev q = (st, [Eff.send ev.target sOld], HRes.ok true) := by
  unfold AddQuote.on_command
  rw [if_pos h]

/-- Witness for C8: re-adding `"alpha"` to a three-quote store. -/
theorem addquote_duplicate_frame_witness :
    sQa ∈ stW3.quotes.quotes ∧
    AddQuote.on_command stW3 evHello sQa = (stW3, [Eff.send evHello.target sOld], HRes.ok true) :=
  ⟨by decide, addquote_duplicate_frame stW3 evHello sQa (by decide)⟩

/-- Claim C2: one step of the dispatch loop.  A handler returning `True`
ends the pass with exactly its effects (no later handler can contribute);
a handler returning `False` contributes its effects and the pass continues
on the state it left; a handler raising an exception has the exception
caught, two log lines (the first naming the handler and the error type)
emitted, and the pass continues with the next handler in the same pass. -/
theorem dispatch_step_contract (name : Str) (fn : BotState → Res)
    (rest : List (Str × (BotState → Res))) (st st' : BotState) (effs : List Eff) (r : HRes)
    (h : fn st = (st', effs, r)) :
    Eggy.on_message ((name, fn) :: rest) st =
      match r with
      | HRes.ok true => (st', effs)
      | HRes.ok false =>
        ((Eggy.on_message rest st').1, effs ++ (Eggy.on_message rest st').2)
      | HRes.exc e =>
        ((Eggy.on_message rest st').1,
          effs ++ [Eff.logError (handlerExcMsg name e), Eff.logError (errDetail e)]
            ++ (Eggy.on_message rest st').2) := by
  cases r with
  | ok b => cases b <;> simp only [Eggy.on_message, h]
  | exc e => simp only [Eggy.on_message, h]

/-- Witness for C2: a throwing handler followed by an empty tail. -/
theorem dispatch_step_contract_witness :
    ((fun st : BotState => (st, ([] : List Eff), HRes.exc PyErr.keyError)) stEmptyNoTopic
      = (stEmptyNoTopic, ([] : List Eff), HRes.exc PyErr.keyError)) ∧
    Eggy.on_message
        [(hnAddQuote, fun st : BotState => (st, ([] : List Eff), HRes.exc PyErr.keyError))]
        stEmptyNoTopic =
      ((Eggy.on_message [] stEmptyNoTopic).1,
        [] ++ [Eff.logError (handlerExcMsg hnAddQuote PyErr.keyError),
          Eff.logError (errDetail PyErr.keyError)]
          ++ (Eggy.on_message [] stEmptyNoTopic).2) :=
  ⟨rfl, dispatch_step_contract hnAddQuote _ [] stEmptyNoTopic stEmptyNoTopic []
    (HRes.exc PyErr.keyError) rfl⟩

/-- Claim C6: any `#n` message whose resolved index lands outside
`[1, count()]` is not handled and emits no reply (and no error reaches the
user); `#0` does not even match the pattern and is likewise not handled
with no reply. -/
theorem getquote_out_of_range_unhandled :
    (∀ (st : BotState) (ev : Event) (m : Int), matchIdx ev.message = some (some m) →
      ((if m < 0 then m + st.quotes.quotes.length + 1 else m) ≤ 0 ∨
        (st.quotes.quotes.length : Int) <
          (if m < 0 then m + st.quotes.quotes.length + 1 else m)) →
      GetQuote.on_message st ev = (st, [], HRes.ok false)) ∧
    (∀ (st : BotState) (ev : Event), ev.message = '#' :: '0' :: [] →
      GetQuote.on_message st ev = (st, [], HRes.ok false)) := by
  constructor
  · intro st ev m hm hout
    simp only [GetQuote.on_message, hm]
    rw [if_pos ?hc]
    case hc =>
      rcases hout with h | h
      · exact Or.inr h
      · exact Or.inl h
  · intro st ev hme
    unfold GetQuote.on_message
    rw [hme]
    rfl

/-- Witness for C6: `#-4` with three quotes resolves to 0 (out of range)
and `#0` does not match; both are not handled with no reply. -/
theorem getquote_out_of_range_unhandled_witness :
    (matchIdx evGQneg.message = some (some (-4 : Int)) ∧
      ((if (-4 : Int) < 0 then (-4 : Int) + stW3.quotes.quotes.length + 1 else (-4 : Int)) ≤ 0 ∨
        (stW3.quotes.quotes.length : Int) <
          (if (-4 : Int) < 0 then (-4 : Int) + stW3.quotes.quotes.length + 1 else (-4 : Int)))) ∧
    GetQuote.on_message stW3 evGQneg = (stW3, [], HRes.ok false) ∧
    GetQuote.on_message stW3 evGQ0 = (stW3, [], HRes.ok false) :=
  ⟨⟨by decide, by decide⟩,
    getquote_out_of_range_unhandled.1 stW3 evGQneg (-4) (by decide) (by decide),
    getquote_out_of_range_unhandled.2 stW3 evGQ0 rfl⟩

/-- Claim C5: for `1 ≤ n ≤ count()`, the messages `#n` and `#(n - count() - 1)`
produce identical results, namely a handled reply with the quote at
1-based position `n` (negative indices count from the end). -/
theorem getquote_negative_index_equiv (st : BotState) (ev : Event) (n : Nat)
    (h1 : 1 ≤ n) (h2 : n ≤ st.quotes.quotes.length) :
    GetQuote.on_message st { ev with message := '#' :: intDecimal (n : Int) } =
      GetQuote.on_message st
        { ev with message := '#' :: intDecimal ((n : Int) - st.quotes.quotes.length - 1) } ∧
    GetQuote.on_message st { ev with message := '#' :: intDecimal (n : Int) } =
      (st, [Eff.send ev.target (st.quotes.quotes.getD (n - 1) [])], HRes.ok true) := by
  have hpos : intDecimal (n : Int) = natDecimal n := by
    unfold intDecimal
    rw [if_neg (by omega)]
    norm_num
  have hnegv : ((n : Int) - st.quotes.quotes.length - 1) < 0 := by omega
  have habs : ((n : Int) - st.quotes.quotes.length - 1).natAbs
      = st.quotes.quotes.length + 1 - n := by omega
  have hneg : intDecimal ((n : Int) - st.quotes.quotes.length - 1)
      = '-' :: natDecimal (st.quotes.quotes.length + 1 - n) := by
    unfold intDecimal
    rw [if_pos hnegv, habs]
  have hmain : GetQuote.on_message st { ev with message := '#' :: intDecimal (n : Int) } =
      (st, [Eff.send ev.target (st.quotes.quotes.getD (n - 1) [])], HRes.ok true) := by
    rw [hpos]
    have hm := matchIdx_render_pos n h1
    simp only [GetQuote.on_message, hm]
    rw [if_neg (by omega : ¬ ((n : Int) < 0))]
    rw [if_neg (by omega : ¬ ((n : Int) > (st.quotes.quotes.length : Int) ∨ (n : Int) ≤ 0))]
    simp only [Int.toNat_natCast]
  have hk : 1 ≤ st.quotes.quotes.length + 1 - n := by omega
  have hmain2 : GetQuote.on_message st
      { ev with message := '#' :: intDecimal ((n : Int) - st.quotes.quotes.length - 1) } =
      (st, [Eff.send ev.target (st.quotes.quotes.getD (n - 1) [])], HRes.ok true) := by
    rw [hneg]
    have hm := matchIdx_render_neg (st.quotes.quotes.length + 1 - n) hk
    simp only [GetQuote.on_message, hm]
    rw [if_pos (by omega : (-((st.quotes.quotes.length + 1 - n : Nat) : Int)) < 0)]
    have hres : (-((st.quotes.quotes.length + 1 - n : Nat) : Int))
        + (st.quotes.quotes.length : Int) + 1 = (n : Int) := by omega
    rw [hres]
    rw [if_neg (by omega : ¬ ((n : Int) > (st.quotes.quotes.length : Int) ∨ (n : Int) ≤ 0))]
    simp only [Int.toNat_natCast]
  exact ⟨hmain.trans hmain2.symm, hmain⟩

/-- Witness for C5: with three quotes, `#2` and `#-2` agree and reply with
the second quote. -/
theorem getquote_negative_index_equiv_witness :
    (1 ≤ 2 ∧ 2 ≤ stW3.quotes.quotes.length) ∧
    (GetQuote.on_message stW3 { evHello with message := '#' :: intDecimal ((2 : Nat) : Int) } =
      GetQuote.on_message stW3
        { evHello with
          message := '#' :: intDecimal (((2 : Nat) : Int) - stW3.quotes.quotes.length - 1) } ∧
    GetQuote.on_message stW3 { evHello with message := '#' :: intDecimal ((2 : Nat) : Int) } =
      (stW3, [Eff.send evHello.target (stW3.quotes.quotes.getD (2 - 1) [])], HRes.ok true)) :=
  ⟨⟨by decide, by decide⟩, getquote_negative_index_equiv stW3 evHello 2 (by decide) (by decide)⟩

theorem on_message_cons_false (name : Str) (fn : BotState → Res)
    (rest : List (Str × (BotState → Res))) (st : BotState)
    (h : fn st = (st, [], HRes.ok false)) :
    Eggy.on_message ((name, fn) :: rest) st = Eggy.on_message rest st := by
  simp only [Eggy.on_message, h, List.nil_append]

theorem on_message_cons_true (name : Str) (fn : BotState → Res)
    (rest : List (Str × (BotState → Res))) (st st' : BotState) (effs : List Eff)
    (h : fn st = (st', effs, HRes.ok true)) :
    Eggy.on_message ((name, fn) :: rest) st = (st', effs) := by
  simp only [Eggy.on_message, h]

theorem runMsgs_cons_eq {r : Nat} {st : BotState} {ev : Event} {evs : List Event}
    {st1 : BotState} {effs : List Eff} {stF : BotState} {out : List (List Eff)}
    (h1 : Eggy.handleMessage r st ev = (st1, effs))
    (h2 : Eggy.runMsgs r st1 evs = (stF, out)) :
    Eggy.runMsgs r st (ev :: evs) = (stF, effs :: out) := by
  simp only [Eggy.runMsgs, h1, h2]

/-- Claim C1 (amended): for a valid, non-duplicate quote, AddQuote inserts
the quote and then: if a topic is cached for the target and it contains the
pre-insertion count in decimal, the substituted topic is issued as a topic
change with no reply; if a cached topic does not contain that count (in
particular an empty topic), a confirmation reply containing the new total
is sent; if NO topic is cached, the lookup `bot.topics[event.target]`
raises `KeyError` (caught and logged by the dispatcher), the quote stays
inserted, and no reply or topic change is emitted — the claim's original
"no cached topic ⇒ confirmation reply" branch does not hold on the code. -/
theorem addquote_topic_sync_amended (st : BotState) (ev : Event) (q : Str)
    (h1 : q ≠ []) (h2 : '\n' ∉ q) (h3 : q ∉ st.quotes.quotes) :
    (∀ topic, lookupTopic st.topics ev.target = some topic →
      (occurs (natDecimal st.quotes.quotes.length) topic = true →
        AddQuote.on_command st ev q =
          ({ st with quotes := ⟨st.quotes.quotes ++ [q], st.quotes.file ++ q ++ ['\n']⟩ },
            [Eff.topic ev.target
              (subAll (natDecimal st.quotes.quotes.length)
                (natDecimal (st.quotes.quotes.length + 1)) topic)],
            HRes.ok true)) ∧
      (occurs (natDecimal st.quotes.quotes.length) topic = false →
        AddQuote.on_command st ev q =
          ({ st with quotes := ⟨st.quotes.quotes ++ [q], st.quotes.file ++ q ++ ['\n']⟩ },
            [Eff.send ev.target (confirmMsg (st.quotes.quotes.length + 1))],
            HRes.ok true) ∧
        occurs (natDecimal (st.quotes.quotes.length + 1))
          (confirmMsg (st.quotes.quotes.length + 1)) = true)) ∧
    (lookupTopic st.topics ev.target = none →
      AddQuote.on_command st ev q =
        ({ st with quotes := ⟨st.quotes.quotes ++ [q], st.quotes.file ++ q ++ ['\n']⟩ },
          [], HRes.exc PyErr.keyError)) := by
  have hadd : Quotes.add st.quotes q =
      Except.ok ⟨st.quotes.quotes ++ [q], st.quotes.file ++ q ++ ['\n']⟩ := by
    unfold Quotes.add
    rw [if_neg (by simp [h1, h2])]
  have hlen1 : (st.quotes.quotes ++ [q]).length - 1 = st.quotes.quotes.length := by simp
  have hlen2 : (st.quotes.quotes ++ [q]).length = st.quotes.quotes.length + 1 := by simp
  refine ⟨?_, ?_⟩
  · intro topic htop
    refine ⟨?_, ?_⟩
    · intro hocc
      have hne : subAll (natDecimal st.quotes.quotes.length)
          (natDecimal (st.quotes.quotes.length + 1)) topic ≠ topic :=
        subAll_ne_of_occurs _ _ _
          (natDecimal_length_le (st.quotes.quotes.length + 1) st.quotes.quotes.length
            (by omega))
          (natDecimal_succ_not_pfx st.quotes.quotes.length) hocc
      have htne : topic ≠ [] :=
        occurs_ne_nil _ _ hocc (natDecimal_ne_nil st.quotes.quotes.length)
      unfold AddQuote.on_command
      rw [if_neg h3, hadd]
      dsimp only
      rw [htop]
      dsimp only
      rw [if_pos htne, hlen1, hlen2, if_pos hne]
    · intro hocc
      refine ⟨?_, ?_⟩
      · unfold AddQuote.on_command
        rw [if_neg h3, hadd]
        dsimp only
        rw [htop]
        dsimp only
        by_cases hte : topic = []
        · rw [if_neg (fun hn => hn hte), hlen2]
        · have hid : subAll (natDecimal st.quotes.quotes.length)
              (natDecimal (st.quotes.quotes.length + 1)) topic = topic :=
            subAll_id_of_not_occurs _ _ _ hocc
          rw [if_pos hte, hlen1, hlen2, if_neg (fun hn => hn hid)]
      · unfold confirmMsg
        rw [List.append_assoc]
        exact occurs_append_pat sQuoteAdded _ sInDatabase
  · intro hnone
    unfold AddQuote.on_command
    rw [if_neg h3, hadd]
    dsimp only
    rw [hnone]

/-- Counterexample for C1 as stated: on a store with no topic cached for
the target, adding a valid non-duplicate quote emits NO reply at all
(the handler raises `KeyError`), contradicting the claimed confirmation
reply containing the new total. -/
theorem addquote_no_cached_topic_cex :
    AddQuote.on_command stEmptyNoTopic evHello sHello =
      ({ stEmptyNoTopic with quotes := ⟨[sHello], sHello ++ ['\n']⟩ }, [],
        HRes.exc PyErr.keyError) ∧
    (AddQuote.on_command stEmptyNoTopic evHello sHello).2.1 = [] := by decide

/-- Witness for C1 (amended): topic `"5 quotes"` cached and five quotes
stored; adding a sixth triggers the topic change with `5` replaced by `6`. -/
theorem addquote_topic_sync_amended_witness :
    (sHello ≠ [] ∧ '\n' ∉ sHello ∧ sHello ∉ stTopic5.quotes.quotes ∧
      lookupTopic stTopic5.topics evHello.target = some sFive ∧
      occurs (natDecimal stTopic5.quotes.quotes.length) sFive = true) ∧
    AddQuote.on_command stTopic5 evHello sHello =
      ({ stTopic5 with quotes := ⟨stTopic5.quotes.quotes ++ [sHello],
          stTopic5.quotes.file ++ sHello ++ ['\n']⟩ },
        [Eff.topic evHello.target
          (subAll (natDecimal stTopic5.quotes.quotes.length)
            (natDecimal (stTopic5.quotes.quotes.length + 1)) sFive)],
        HRes.ok true) :=
  ⟨⟨by decide, by decide, by decide, by decide, by decide⟩,
    ((addquote_topic_sync_amended stTopic5 evHello sHello (by decide) (by decide)
      (by decide)).1 sFive (by decide)).1 (by decide)⟩

/-- Claim C7 (amended): provided the store satisfies the packed-file
invariant and the added quote contains no carriage return, a successful
`add` preserves the invariant and re-reading the persisted file the way
`load()` does reproduces the in-memory sequence exactly.  (For quotes
containing `'\r'` the mirror fails: text-mode reading translates and
strips carriage returns.) -/
theorem quotes_mirror_amended (qs : QuotesState) (q : Str) (qs' : QuotesState)
    (hpk : qs.packed) (hcr : '\r' ∉ q) (hadd : Quotes.add qs q = Except.ok qs') :
    qs'.packed ∧ readQuotes qs'.file = qs'.quotes := by
  unfold Quotes.add at hadd
  by_cases hvalid : q = [] ∨ '\n' ∈ q
  · rw [if_pos hvalid] at hadd
    exact absurd hadd (by simp)
  · rw [if_neg hvalid] at hadd
    injection hadd with hadd
    obtain ⟨hq1, hq2⟩ := not_or.mp hvalid
    subst hadd
    have hpk' : QuotesState.packed ⟨qs.quotes ++ [q], qs.file ++ q ++ ['\n']⟩ := by
      constructor
      · show qs.file ++ q ++ ['\n'] = ((qs.quotes ++ [q]).map (fun p => p ++ ['\n'])).flatten
        rw [hpk.1]
        simp [List.append_assoc]
      · intro p hp
        rcases List.mem_append.mp hp with hm | hm
        · exact hpk.2 p hm
        · have hpq : p = q := by simpa using hm
          subst hpq
          exact ⟨hq1, hq2, hcr⟩
    refine ⟨hpk', ?_⟩
    show readQuotes (qs.file ++ q ++ ['\n']) = qs.quotes ++ [q]
    rw [show qs.file ++ q ++ ['\n']
        = ((qs.quotes ++ [q]).map (fun p => p ++ ['\n'])).flatten from hpk'.1]
    exact readQuotes_packed _ hpk'.2

/-- Counterexample for C7 as stated: the quote `"a\r"` is accepted by
`add`, but re-reading the persisted file yields `"a"` (universal-newline
translation plus `rstrip('\n\r')`), so the file no longer mirrors the
in-memory sequence. -/
theorem quotes_mirror_cr_cex :
    Quotes.add ⟨[], []⟩ sCRq = Except.ok ⟨[sCRq], sCRq ++ ['\n']⟩ ∧
    readQuotes (sCRq ++ ['\n']) = [['a']] ∧
    readQuotes (sCRq ++ ['\n']) ≠ [sCRq] :=
  ⟨rfl, by decide, by decide⟩

/-- Witness for C7 (amended): adding `"beta"` to a packed one-quote store. -/
theorem quotes_mirror_amended_witness :
    (QuotesState.packed ⟨[sQa], sQa ++ ['\n']⟩ ∧ '\r' ∉ sQb ∧
      Quotes.add ⟨[sQa], sQa ++ ['\n']⟩ sQb =
        Except.ok ⟨[sQa, sQb], (sQa ++ ['\n']) ++ sQb ++ ['\n']⟩) ∧
    (QuotesState.packed ⟨[sQa, sQb], (sQa ++ ['\n']) ++ sQb ++ ['\n']⟩ ∧
      readQuotes ((sQa ++ ['\n']) ++ sQb ++ ['\n']) = [sQa, sQb]) :=
  ⟨⟨by decide, by decide, rfl⟩,
    quotes_mirror_amended ⟨[sQa], sQa ++ ['\n']⟩ sQb
      ⟨[sQa, sQb], (sQa ++ ['\n']) ++ sQb ++ ['\n']⟩
      (by decide) (by decide) rfl⟩

/-- Claim C10: a message containing the trigger word that every earlier
handler (AddQuote, GetQuote, Rebirth — e.g. a rebirth command with a
non-alphanumeric argument) declines is picked up by the last-registered
QuoteTrigger, which always replies: a stored quote when the store is
nonempty, the literal "No quotes" otherwise.  Such a message is never
silently dropped. -/
theorem quotetrigger_fallback (r : Nat) (st : BotState) (ev : Event)
    (hA : Command.on_message sAdd AddQuote.on_command st ev = (st, [], HRes.ok false))
    (hG : GetQuote.on_message st ev = (st, [], HRes.ok false))
    (hR : Command.on_message sRebirth Rebirth.on_command st ev = (st, [], HRes.ok false))
    (hT : occurs st.trigger ev.message = true) :
    Eggy.handleMessage r st ev =
      (st, [Eff.send ev.target
        (if st.quotes.quotes.length = 0 then sNoQuotes
         else randomChoice r st.quotes.quotes)]) ∧
    (st.quotes.quotes.length ≠ 0 → randomChoice r st.quotes.quotes ∈ st.quotes.quotes) := by
  constructor
  · have hsteps : Eggy.handleMessage r st ev =
        Eggy.on_message [(hnQuoteTrigger, fun s => QuoteTrigger.on_message r s ev)] st := by
      unfold Eggy.handleMessage Eggy.message_handlers
      rw [on_message_cons_false _ _ _ _ hA, on_message_cons_false _ _ _ _ hG,
        on_message_cons_false _ _ _ _ hR]
    rw [hsteps]
    by_cases hlen : st.quotes.quotes.length = 0
    · have hq : QuoteTrigger.on_message r st ev =
          (st, [Eff.send ev.target sNoQuotes], HRes.ok true) := by
        unfold QuoteTrigger.on_message
        rw [if_neg (fun hC => hC hT), if_pos hlen]
      rw [on_message_cons_true _ _ _ _ _ _ hq, if_pos hlen]
    · have hq : QuoteTrigger.on_message r st ev =
          (st, [Eff.send ev.target (randomChoice r st.quotes.quotes)], HRes.ok true) := by
        unfold QuoteTrigger.on_message
        rw [if_neg (fun hC => hC hT), if_neg hlen]
      rw [on_message_cons_true _ _ _ _ _ _ hq, if_neg hlen]
  · intro hne
    unfold randomChoice
    have hlt : r % st.quotes.quotes.length < st.quotes.quotes.length :=
      Nat.mod_lt _ (Nat.pos_of_ne_zero hne)
    rw [List.getD_eq_getElem _ _ hlt]
    exact List.getElem_mem hlt

/-- Witness for C10: one quote stored, message `"eggpy rebirth bot2!"`
declined by the three earlier handlers; QuoteTrigger replies with the
stored quote. -/
theorem quotetrigger_fallback_witness :
    (Command.on_message sAdd AddQuote.on_command stW1 evReb = (stW1, [], HRes.ok false) ∧
      GetQuote.on_message stW1 evReb = (stW1, [], HRes.ok false) ∧
      Command.on_message sRebirth Rebirth.on_command stW1 evReb = (stW1, [], HRes.ok false) ∧
      occurs stW1.trigger evReb.message = true) ∧
    Eggy.handleMessage 0 stW1 evReb =
      (stW1, [Eff.send evReb.target
        (if stW1.quotes.quotes.length = 0 then sNoQuotes
         else randomChoice 0 stW1.quotes.quotes)]) :=
  ⟨⟨by decide, by decide, by decide, by decide⟩,
    (quotetrigger_fallback 0 stW1 evReb (by decide) (by decide) (by decide) (by decide)).1⟩

/-- Claim C9: the end-to-end scenario.  From an empty store (with a cached
topic for the channel that contains no digit, so the add falls through to
the confirmation reply): `"eggpy add hello world"` is handled by AddQuote
— not by the random-quote trigger — with a confirmation containing `1`;
`"#"` replies `"1"`; `"#1"` replies `"hello world"`; `"eggpy"` replies the
only quote `"hello world"`; `"eggpy rebirth bot2!"` causes no display-name
change (no `Eff.nick` is emitted — QuoteTrigger answers with a quote). -/
theorem scenario_end_to_end (r : Nat) :
    Eggy.runMsgs r stScen [evScen1, evScen2, evScen3, evScen4, evReb] =
      (stScenAfter,
        [[Eff.send sChan (confirmMsg 1)],
         [Eff.send sChan ['1']],
         [Eff.send sChan sHello],
         [Eff.send sChan sHello],
         [Eff.send sChan sHello]]) ∧
    occurs ['1'] (confirmMsg 1) = true := by
  refine ⟨?_, by decide⟩
  have h1 : Eggy.handleMessage r stScen evScen1 =
      (stScenAfter, [Eff.send sChan (confirmMsg 1)]) := rfl
  have h2 : Eggy.handleMessage r stScenAfter evScen2 =
      (stScenAfter, [Eff.send sChan ['1']]) := rfl
  have h3 : Eggy.handleMessage r stScenAfter evScen3 =
      (stScenAfter, [Eff.send sChan sHello]) := rfl
  have h4 : Eggy.handleMessage r stScenAfter evScen4 =
      (stScenAfter, [Eff.send sChan (List.getD [sHello] (r % 1) [])]) := rfl
  have h5 : Eggy.handleMessage r stScenAfter evReb =
      (stScenAfter, [Eff.send sChan (List.getD [sHello] (r % 1) [])]) := rfl
  rw [Nat.mod_one] at h4 h5
  have hget : List.getD [sHello] 0 [] = sHello := rfl
  rw [hget] at h4 h5
  exact runMsgs_cons_eq h1 (runMsgs_cons_eq h2 (runMsgs_cons_eq h3
    (runMsgs_cons_eq h4 (runMsgs_cons_eq h5 (runMsgs_nil r stScenAfter)))))

/-- Witness for C9 at the oracle value 0. -/
theorem scenario_end_to_end_witness :
    Eggy.runMsgs 0 stScen [evScen1, evScen2, evScen3, evScen4, evReb] =
      (stScenAfter,
        [[Eff.send sChan (confirmMsg 1)],
         [Eff.send sChan ['1']],
         [Eff.send sChan sHello],
         [Eff.send sChan sHello],
         [Eff.send sChan sHello]]) ∧
    occurs ['1'] (confirmMsg 1) = true :=
  scenario_end_to_end 0
